import Mathlib

/-!
vcn: ledger inspection, reconciliation and verification exit code

A shallow embedding of

* `pkg/cmd/inspect/lc_inspect.go` (`GetLcResults`, `getSignerResults`,
  `getHistoryResults`, `getTimeRangedResults`),
* `pkg/cmd/inspect/inspect.go` (`GetResults`),
* `pkg/cmd/verify/lc_verify.go` (`lcVerify`),

together with the properties of these functions.

Conventions of the embedding.

* A Go `string` is a Lean `String`; a Go `[]byte` is a list of naturals below 256
  (`nil` and the empty slice are both `[]`).
* `uint64` values are naturals below `2 ^ 64`; narrowing conversions are written out
  with explicit modular arithmetic.
* A finite `float64` whose value is an integer is represented by that integer; every
  float the program builds (`float64` of an `int64`, `math.MaxFloat64`) is of this kind.
* A call to the ledger client is recorded in a call log, so that "which request was
  sent" is a property of the value a function returns.
* A Go run-time panic (nil pointer dereference) is the failure `Failure.panic`.
-/

namespace Vcn

/-! ## Basic values -/

/-- Go byte slice. -/
abbrev Bytes := List Nat

/-- The UTF-8 encoding of one character. -/
def utf8Bytes (c : Char) : Bytes :=
  let n := c.toNat
  if n < 0x80 then [n]
  else if n < 0x800 then [0xC0 + n / 64, 0x80 + n % 64]
  else if n < 0x10000 then [0xE0 + n / 4096, 0x80 + n / 64 % 64, 0x80 + n % 64]
  else [0xF0 + n / 262144, 0x80 + n / 4096 % 64, 0x80 + n / 64 % 64, 0x80 + n % 64]

/-- The conversion `[]byte(s)` of a Go string: its bytes, the UTF-8 encoding of the
text. -/
def bytesOf (s : String) : Bytes := s.toList.flatMap utf8Bytes

/-- Go `error` value, identified by its message. -/
structure GoError where
  msg : String
  deriving DecidableEq, Repr

/-- How a Go function call can end without a normal result: a returned non-nil
`error`, or a run-time panic. -/
inductive Failure where
  | error (e : GoError)
  | panic
  deriving DecidableEq, Repr

/-- The value of `math.MaxUint64`. -/
def MaxUint64 : Nat := 2 ^ 64 - 1

/-- The value of `math.MaxFloat64`, the largest finite `float64`:
`(2 ^ 53 - 1) * 2 ^ 971`, an integer. -/
def MaxFloat64 : Int := (2 ^ 53 - 1) * 2 ^ 971

/-- The conversion `int32(x)` of a `uint64` value: the low 32 bits, read as a
two's complement number. -/
def int32OfUint64 (x : Nat) : Int :=
  if x % 2 ^ 32 < 2 ^ 31 then (x % 2 ^ 32 : Nat) else ((x % 2 ^ 32 : Nat) : Int) - 2 ^ 32

/-- Wrap-around of an integer into the `int64` range (Go integer overflow). -/
def wrapInt64 (n : Int) : Int := (n + 2 ^ 63) % 2 ^ 64 - 2 ^ 63

/-! ## Ledger requests -/

set_option linter.dupNamespace false in
/-- The type `immuschema.Score`. -/
structure Score where
  Score : Int
  deriving DecidableEq, Repr

/-- The fields of `immuschema.ZScanRequest` that the program sets; a nil `*Score` is
`none`. -/
structure ZScanRequest where
  Set : Bytes
  SeekKey : Bytes
  SeekScore : Int
  SeekAtTx : Nat
  Limit : Nat
  Desc : Bool
  MinScore : Option Score
  MaxScore : Option Score
  SinceTx : Nat
  NoWait : Bool
  deriving DecidableEq, Repr

/-- The fields of `immuschema.HistoryRequest` that the program sets; `Limit` is an
`int32`. -/
structure HistoryRequest where
  Key : Bytes
  Limit : Int
  Desc : Bool
  deriving DecidableEq, Repr

/-- One request sent to the ledger. -/
inductive LedgerCall where
  | ZScanExt (req : ZScanRequest)
  | HistoryExt (req : HistoryRequest)
  deriving DecidableEq, Repr

/-- The ledger client `u.Client`: the answer of the ledger to each request. -/
structure LcClient (ZItem Item : Type) where
  ZScanExt : ZScanRequest → Except GoError (List ZItem)
  HistoryExt : HistoryRequest → Except GoError (List Item)

/-- The outcome of running a function that talks to the ledger: the requests it sent,
in order, and what it returned. -/
structure Run (α : Type) where
  calls : List LedgerCall
  ret : Except Failure α

/-! ## Time -/

/-- A `time.Time` in UTC: seconds since the Unix epoch and nanoseconds within the
second. -/
structure Time where
  unixSec : Int
  nsec : Nat
  deriving DecidableEq, Repr

/-- `Time.IsZero`: the instant January 1, year 1, 00:00:00 UTC. -/
def Time.IsZero (t : Time) : Bool := t.unixSec = -62135596800 ∧ t.nsec = 0

/-- `Time.UnixNano`: `unixSec * 1e9 + nsec` in `int64` arithmetic, which wraps. -/
def Time.UnixNano (t : Time) : Int := wrapInt64 (t.unixSec * 1000000000 + t.nsec)

/-- The conversion `float64(n)` of an `int64`: the nearest value with a 53 bit
significand, ties to the even significand. The result is again an integer. -/
def float64OfInt64 (n : Int) : Int :=
  let m := n.natAbs
  if m < 2 ^ 53 then n
  else
    let e := Nat.log 2 m - 52
    let q := m / 2 ^ e
    let r := m % 2 ^ e
    let half := 2 ^ (e - 1)
    let q' := if half < r ∨ (r = half ∧ q % 2 = 1) then q + 1 else q
    n.sign * ((q' * 2 ^ e : Nat) : Int)

/-- `isLeap` of package `time`. -/
def isLeap (year : Nat) : Bool := year % 4 = 0 ∧ (year % 100 ≠ 0 ∨ year % 400 = 0)

/-- The table `daysBefore` of package `time`: days of a non-leap year before the
month starts (`month` is 1 based; entry 12 is the length of the year). -/
def daysBefore : List Nat := [0, 31, 59, 90, 120, 151, 181, 212, 243, 273, 304, 334, 365]

/-- `daysIn` of package `time`. -/
def daysIn (month year : Nat) : Nat :=
  if month = 2 ∧ isLeap year then 29
  else daysBefore.getD month 0 - daysBefore.getD (month - 1) 0

/-- Days from 0000-01-01 to the first day of `year` in the proleptic Gregorian
calendar (year 0 is a leap year). -/
def daysBeforeYear (year : Nat) : Nat :=
  365 * year + (year + 3) / 4 - (year + 99) / 100 + (year + 399) / 400

/-- Days from 1970-01-01 to the given date (negative before the epoch), as computed by
`time.Date`: whole years, then whole months, the leap day when past February, then
days. -/
def daysSinceEpoch (year month day : Nat) : Int :=
  ((daysBeforeYear year + daysBefore.getD (month - 1) 0
      + (if isLeap year ∧ 3 ≤ month then 1 else 0) + (day - 1) : Nat) : Int) - 719528

/-- `time.Date(year, month, day, 0, 0, 0, 0, time.UTC)`. -/
def Date (year month day : Nat) : Time :=
  { unixSec := daysSinceEpoch year month day * 86400, nsec := 0 }

/-- Value of an ASCII digit, if the character is one (`isDigit` and `c - 48`). -/
def digit? (c : Char) : Option Nat :=
  if 48 ≤ c.toNat ∧ c.toNat ≤ 57 then some (c.toNat - 48) else none

/-- A calendar date: what `time.Parse` reads from a `YYYY-MM-DD` string. -/
structure CivilDate where
  year : Nat
  month : Nat
  day : Nat
  deriving DecidableEq, Repr

/-- The fields read by `time.Parse` with the layout `2006-01-02`: four digits of
year, `-`, two digits of month in `1..12`, `-`, two digits of day in
`1..daysIn month year`, and nothing after. Anything else is a parse error. -/
def parseCivil (value : String) : Option CivilDate :=
  match value.toList with
  | [y1, y2, y3, y4, s1, m1, m2, s2, d1, d2] =>
    match digit? y1, digit? y2, digit? y3, digit? y4, digit? m1, digit? m2,
        digit? d1, digit? d2 with
    | some a, some b, some c, some d, some e, some f, some g, some h =>
      let year := 1000 * a + 100 * b + 10 * c + d
      let month := 10 * e + f
      let day := 10 * g + h
      if s1 = '-' ∧ s2 = '-' ∧ 1 ≤ month ∧ month ≤ 12 ∧ 1 ≤ day ∧ day ≤ daysIn month year then
        some ⟨year, month, day⟩
      else none
    | _, _, _, _, _, _, _, _ => none
  | _ => none

/-- Modelled from the spec: the constant `meta.DateShortForm`, which is not among the
sources, is the `YYYY-MM-DD` form, written in Go as the layout `2006-01-02`. This is
`time.Parse(meta.DateShortForm, value)`; the time is midnight UTC of the date. -/
def parseDateShortForm (value : String) : Except GoError Time :=
  match parseCivil value with
  | some d => .ok (Date d.year d.month d.day)
  | none => .error ⟨"parsing time: " ++ value⟩

/-! ## Artifacts and results -/

/-- The type `meta.Status`, an integer enumeration. -/
abbrev Status := Int

/-- `Status.Int`. -/
def Status.Int (s : Status) : Int := s

/-- An attachment descriptor of a notarized artifact. -/
structure Attachment where
  descriptor : String
  deriving DecidableEq, Repr

/-- The fields of `api.LcArtifact` that the program reads or writes. -/
structure LcArtifact where
  Status : Status
  Revoked : Option Time
  Attachments : List Attachment
  deriving DecidableEq, Repr

/-- Modelled from the spec: the type `types.LcResult` is not among the sources. A
reconciled result is an optional record, the verified flag, and the ordered list of
non-fatal errors attached to it. -/
structure LcResult where
  LcArtifact : Option LcArtifact
  Verified : Bool
  Errors : List GoError
  deriving DecidableEq, Repr

/-- Modelled from the spec: `types.NewLcResult` is not among the sources. A result is
created fresh per ledger item, with no error attached. -/
def NewLcResult (lca : Option LcArtifact) (verified : Bool) : LcResult :=
  { LcArtifact := lca, Verified := verified, Errors := [] }

/-- Modelled from the spec: `(*LcResult).AddError` is not among the sources. The error
is appended to the error list of the result. -/
def LcResult.AddError (r : LcResult) (err : GoError) : LcResult :=
  { r with Errors := r.Errors ++ [err] }

/-- The parts of packages `api` and `meta` used by `lc_inspect.go` that are not among
the sources: two constants, the two key building functions, and the two functions
mapping a ledger item to an artifact (each returns a pointer and an error). -/
structure Api (ZItem Item : Type) where
  VcnPrefix : String
  IndexDateRangePrefix : String
  AppendPrefix : String → Bytes → Bytes
  AppendSignerId : String → Bytes → Bytes
  ZItemToLcArtifact : ZItem → Option LcArtifact × Option GoError
  ItemToLcArtifact : Item → Option LcArtifact × Option GoError

/-! ## `lc_inspect.go` -/

/-- The seek key of a descending scan: `make([]byte, n)` followed by the loop
`for i := 0; i < n; i++ { seekKey[i] = 0xFF }`. -/
def seekKeyFF (n : Nat) : Bytes :=
  (List.range n).foldl (fun seekKey i => seekKey.set i 0xFF) (List.replicate n 0)

/-- The loop over `zitems.Items` of `getSignerResults` and of `getTimeRangedResults`
(the same text in both). `results` starts as `make([]*types.LcResult, len)`, all nil.
When the mapping fails, `results[i].AddError(err)` is called on the element before it
is assigned: on a nil element this dereferences a nil pointer. -/
def zitemsLoop {ZItem Item : Type} (api : Api ZItem Item) :
    List ZItem → Nat → List (Option LcResult) → Except Failure (List (Option LcResult))
  | [], _, results => .ok results
  | v :: rest, i, results =>
    match api.ZItemToLcArtifact v with
    | (lca, some err) =>
      match results.getD i none with
      | none => .error .panic
      | some r =>
        let results := results.set i (some (r.AddError err))
        zitemsLoop api rest (i + 1) (results.set i (some (NewLcResult lca true)))
    | (lca, none) =>
      zitemsLoop api rest (i + 1) (results.set i (some (NewLcResult lca true)))

/-- The loop over `items.Items` of `getHistoryResults`. A mapping error returns from
the function; the later test `if err != nil` is then never true. -/
def itemsLoop {ZItem Item : Type} (api : Api ZItem Item) :
    List Item → Nat → List (Option LcResult) → Except Failure (List (Option LcResult))
  | [], _, results => .ok results
  | v :: rest, i, results =>
    match api.ItemToLcArtifact v with
    | (_, some err) => .error (.error err)
    | (lca, none) =>
      itemsLoop api rest (i + 1) (results.set i (some (NewLcResult lca true)))

/-- The request built by `getSignerResults`. -/
def signerRequest (key : Bytes) (first last : Nat) : ZScanRequest :=
  let desc := false
  let limit := 0
  let seekKey : Bytes := []
  let limit := if 0 < first then first else limit
  let (limit, desc, seekKey) :=
    if 0 < last then (last, true, seekKeyFF 256) else (limit, desc, seekKey)
  { Set := key, SeekKey := seekKey, SeekScore := MaxFloat64, SeekAtTx := MaxUint64,
    Limit := limit, Desc := desc, MinScore := none, MaxScore := none,
    SinceTx := MaxUint64, NoWait := true }

/-- `getSignerResults`. -/
def getSignerResults {ZItem Item : Type} (api : Api ZItem Item) (key : Bytes)
    (u : LcClient ZItem Item) (first last : Nat) : Run (List (Option LcResult)) :=
  let req := signerRequest key first last
  match u.ZScanExt req with
  | .error err => { calls := [.ZScanExt req], ret := .error (.error err) }
  | .ok zitems =>
    { calls := [.ZScanExt req],
      ret := zitemsLoop api zitems 0 (List.replicate zitems.length none) }

/-- The request built by `getHistoryResults`; the limit is converted to `int32`. -/
def historyRequest (key : Bytes) (first last : Nat) : HistoryRequest :=
  let desc := false
  let limit := 0
  let limit := if 0 < first then first else limit
  let (limit, desc) := if 0 < last then (last, true) else (limit, desc)
  { Key := key, Limit := int32OfUint64 limit, Desc := desc }

/-- `getHistoryResults`. -/
def getHistoryResults {ZItem Item : Type} (api : Api ZItem Item) (key : Bytes)
    (u : LcClient ZItem Item) (first last : Nat) : Run (List (Option LcResult)) :=
  let req := historyRequest key first last
  match u.HistoryExt req with
  | .error err => { calls := [.HistoryExt req], ret := .error (.error err) }
  | .ok items =>
    { calls := [.HistoryExt req],
      ret := itemsLoop api items 0 (List.replicate items.length none) }

/-- The score of a date string in `getTimeRangedResults`:
`float64(t.UnixNano())` of the parsed time. -/
def dateScore (value : String) : Except GoError Score :=
  match parseDateShortForm value with
  | .error err => .error err
  | .ok t => .ok { Score := float64OfInt64 t.UnixNano }

/-- The request built by `getTimeRangedResults` once the scores are known. -/
def timeRangedRequest (set : Bytes) (first last : Nat) (startScore endScore : Option Score) :
    ZScanRequest :=
  let desc := false
  let limit := 0
  let seekKey : Bytes := []
  let limit := if 0 < first then first else limit
  let (limit, desc, seekKey) :=
    if 0 < last then (last, true, seekKeyFF 1024) else (limit, desc, seekKey)
  { Set := set, SeekKey := seekKey, SeekScore := MaxFloat64, SeekAtTx := MaxUint64,
    Limit := limit, Desc := desc, MinScore := startScore, MaxScore := endScore,
    SinceTx := MaxUint64, NoWait := true }

/-- The scores `startScore` and `endScore` of `getTimeRangedResults`: nil for an empty
string; a date that does not parse returns the error from the function. -/
def rangeScores (start end_ : String) : Except GoError (Option Score × Option Score) :=
  match (if start ≠ "" then (dateScore start).map some else .ok none) with
  | .error err => .error err
  | .ok startScore =>
    match (if end_ ≠ "" then (dateScore end_).map some else .ok none) with
    | .error err => .error err
    | .ok endScore => .ok (startScore, endScore)

/-- `getTimeRangedResults`. -/
def getTimeRangedResults {ZItem Item : Type} (api : Api ZItem Item)
    (u : LcClient ZItem Item) (set : Bytes) (first last : Nat) (start end_ : String) :
    Run (List (Option LcResult)) :=
  match rangeScores start end_ with
  | .error err => { calls := [], ret := .error (.error err) }
  | .ok (startScore, endScore) =>
    let req := timeRangedRequest set first last startScore endScore
    match u.ZScanExt req with
    | .error err => { calls := [.ZScanExt req], ret := .error (.error err) }
    | .ok zitems =>
      { calls := [.ZScanExt req],
        ret := zitemsLoop api zitems 0 (List.replicate zitems.length none) }

/-- The key computed at the start of `GetLcResults`. -/
def lcKey {ZItem Item : Type} (api : Api ZItem Item) (hash signerID : String) : Bytes :=
  if signerID = "" then bytesOf hash
  else api.AppendSignerId hash (api.AppendPrefix api.VcnPrefix (bytesOf signerID))

/-- `GetLcResults`. Each branch returns what the strategy returned (`nil, err` on an
error, `results, nil` otherwise). -/
def GetLcResults {ZItem Item : Type} (api : Api ZItem Item) (hash signerID : String)
    (u : LcClient ZItem Item) (first last : Nat) (start end_ : String) :
    Run (List (Option LcResult)) :=
  let key := lcKey api hash signerID
  if start ≠ "" ∨ end_ ≠ "" then
    let key := if signerID = "" then bytesOf api.IndexDateRangePrefix ++ key else key
    getTimeRangedResults api u key first last start end_
  else
    if signerID = "" then getSignerResults api key u first last
    else getHistoryResults api key u first last

/-- Calendar order: `a` is an earlier date than `b`. -/
def CivilDate.earlier (a b : CivilDate) : Prop :=
  a.year < b.year ∨ (a.year = b.year ∧
    (a.month < b.month ∨ (a.month = b.month ∧ a.day < b.day)))

instance (a b : CivilDate) : Decidable (a.earlier b) := by
  unfold CivilDate.earlier
  infer_instance

/-- The dates whose midnight has a nanosecond Unix time within `int64`: from
1677-09-22 to 2262-04-11. -/
def CivilDate.inUnixNanoRange (d : CivilDate) : Prop :=
  ¬ d.earlier ⟨1677, 9, 22⟩ ∧ ¬ CivilDate.earlier ⟨2262, 4, 11⟩ d

instance (d : CivilDate) : Decidable d.inUnixNanoRange := by
  unfold CivilDate.inUnixNanoRange
  infer_instance

/-- Days of `year` before `month` starts, the leap day included. -/
def monthStart (year month : Nat) : Nat :=
  daysBefore.getD (month - 1) 0 + (if isLeap year ∧ 3 ≤ month then 1 else 0)

/-- A date read by `time.Parse` is a date of the calendar. -/
structure CivilDate.Valid (d : CivilDate) : Prop where
  year_le : d.year ≤ 9999
  month_pos : 1 ≤ d.month
  month_le : d.month ≤ 12
  day_pos : 1 ≤ d.day
  day_le : d.day ≤ daysIn d.month d.year

/-! ## `inspect.go` -/

/-- The fields of `api.BlockchainVerification` that `GetResults` reads: the status (a
`meta.Status`) and the level (a `meta.Level`, an integer type). -/
structure BlockchainVerification where
  Status : Status
  Level : Int
  deriving DecidableEq, Repr

/-- The fields of `api.ArtifactResponse` that `GetResults` reads: the status, a string,
and the level, an `int64`. -/
structure ArtifactResponse where
  Status : String
  Level : Int
  deriving DecidableEq, Repr

/-- The field of `api.Artifact` that the program reads. -/
structure Artifact where
  Hash : String
  deriving DecidableEq, Repr

/-- Modelled from the spec: the type `types.Result` is not among the sources. A
reconciled result is an optional artifact, optional platform metadata, an optional
verification record, and the ordered list of non-fatal errors. -/
structure Result where
  Artifact : Option Artifact
  ArtifactResponse : Option ArtifactResponse
  Verification : Option BlockchainVerification
  Errors : List GoError
  deriving DecidableEq, Repr

/-- Modelled from the spec: `types.NewResult` is not among the sources. A result is
created fresh, with no error attached, and is never shared across items: it holds its
record by value. -/
def NewResult (a : Option Artifact) (ar : Option ArtifactResponse)
    (v : Option BlockchainVerification) : Result :=
  { Artifact := a, ArtifactResponse := ar, Verification := v, Errors := [] }

/-- Modelled from the spec: `(*Result).AddError` is not among the sources. The error is
appended to the error list of the result. -/
def Result.AddError (r : Result) (err : GoError) : Result :=
  { r with Errors := r.Errors ++ [err] }

/-- The collaborators of `GetResults` that are not among the sources:
`api.BlockChainInspect`, `api.LoadArtifact` for the user at hand (it returns a pointer
and an error), and the methods `MetaHash` and `Status.String`. -/
structure Platform where
  BlockChainInspect : String → Except GoError (List BlockchainVerification)
  LoadArtifact : String → String → Option ArtifactResponse × Option GoError
  MetaHash : BlockchainVerification → String
  StatusString : Status → String

/-- The error `fmt.Errorf("status not in sync (blockchain: %s, platform: %s)", ..)`. -/
def statusNotInSync (blockchain platform : String) : GoError :=
  ⟨"status not in sync (blockchain: " ++ blockchain ++ ", platform: " ++ platform ++ ")"⟩

/-- The error `fmt.Errorf("level not in sync (blockchain: %d, platform: %d)", ..)`. -/
def levelNotInSync (blockchain platform : Int) : GoError :=
  ⟨"level not in sync (blockchain: " ++ toString blockchain ++ ", platform: "
    ++ toString platform ++ ")"⟩

/-- The body of the loop of `GetResults` for one verification: the value left in
`results[i]`. -/
def reconcile (p : Platform) (hash : String) (v : BlockchainVerification) : Result :=
  let (ar, err) := p.LoadArtifact hash (p.MetaHash v)
  let r := NewResult none ar (some v)
  let r := match err with
    | some err => r.AddError err
    | none => r
  match ar with
  | some ar =>
    let r := if p.StatusString v.Status ≠ ar.Status then
        r.AddError (statusNotInSync (p.StatusString v.Status) ar.Status)
      else r
    if v.Level ≠ ar.Level then r.AddError (levelNotInSync v.Level ar.Level) else r
  | none => r

/-- The loop `for i, v := range verifications` of `GetResults`, writing `results[i]`. -/
def verificationsLoop (p : Platform) (hash : String) :
    List BlockchainVerification → Nat → List Result → List Result
  | [], _, results => results
  | v :: rest, i, results =>
    verificationsLoop p hash rest (i + 1) (results.set i (reconcile p hash v))

/-- `GetResults`; `make([]types.Result, l)` holds `l` zero values. -/
def GetResults (p : Platform) (hash : String) : Except GoError (List Result) :=
  match p.BlockChainInspect hash with
  | .error err => .error err
  | .ok verifications =>
    .ok (verificationsLoop p hash verifications 0
      (List.replicate verifications.length
        { Artifact := none, ArtifactResponse := none, Verification := none, Errors := [] }))

/-! ## `lc_verify.go` -/

/-- The collaborators of `lcVerify` that are not among the sources: the hook run at
the start, `LcUser.LoadArtifact` and `LcUser.DownloadAttachment`, the `exit-code`
flag of the command (`cmd.Flags().GetInt`), `cli.PrintWarning`, and the constants of
packages `api` and `meta`. None of the collaborators writes the stored exit code. -/
structure VerifyEnv where
  lcFinalizeWithoutAlert : String → Option GoError
  LoadArtifact : String → String → String → Except GoError (LcArtifact × Bool)
  DownloadAttachment : Attachment → LcArtifact → Option GoError
  exitCodeFlag : Except GoError Int
  PrintWarning : String → String → Option GoError
  ErrNotFound : GoError
  ErrNotVerified : GoError
  StatusUnknown : Status
  StatusApikeyRevoked : Status
  VcnDefaultExitCode : Int

/-- What a call of `lcVerify` leaves behind: the exit code stored under `exit-code`
(written with `strconv.Itoa`, read with `viper.GetInt`), the result handed to
`cli.PrintLc` if the call got there, and the returned error. -/
structure VerifyOutcome where
  exitCode : Int
  printed : Option LcResult
  err : Option GoError
  deriving DecidableEq, Repr

/-- The loop `for _, a := range ar.Attachments`: the first failing download returns its
error from `lcVerify`. -/
def downloadAttachments (env : VerifyEnv) (ar : LcArtifact) : List Attachment → Option GoError
  | [] => none
  | a :: rest =>
    match env.DownloadAttachment a ar with
    | some err => some err
    | none => downloadAttachments env ar rest

/-- `lcVerify`; `stored` is the exit code stored on entry. -/
def lcVerify (env : VerifyEnv) (a : Artifact) (signerID uid output : String)
    (stored : Int) : VerifyOutcome :=
  match env.lcFinalizeWithoutAlert output with
  | some err => { exitCode := stored, printed := none, err := some err }
  | none =>
    match env.LoadArtifact a.Hash signerID uid with
    | .error err =>
      let (err, stored) :=
        if err = env.ErrNotFound then
          ((⟨a.Hash ++ " was not notarized"⟩ : GoError), env.StatusUnknown.Int)
        else (err, stored)
      let stored := if err = env.ErrNotVerified then env.StatusUnknown.Int else stored
      { exitCode := stored, printed := none, err := env.PrintWarning output err.msg }
    | .ok (ar, verified) =>
      let (stored, ar) :=
        if ar.Revoked ≠ none ∧ ¬ (ar.Revoked.any Time.IsZero) then
          (env.StatusApikeyRevoked.Int, { ar with Status := env.StatusApikeyRevoked })
        else (stored, ar)
      match (if output = "attachments" then downloadAttachments env ar ar.Attachments
             else none) with
      | some err => { exitCode := stored, printed := none, err := some err }
      | none =>
        let (stored, ar) :=
          if ¬ verified then (env.StatusUnknown.Int, { ar with Status := env.StatusUnknown })
          else (stored, ar)
        match env.exitCodeFlag with
        | .error err => { exitCode := stored, printed := none, err := some err }
        | .ok exitCode =>
          let stored :=
            if exitCode = env.VcnDefaultExitCode ∧ stored = 0 then ar.Status.Int else stored
          { exitCode := stored, printed := some (NewLcResult (some ar) verified), err := none }

/-- The status `lcVerify` leaves in the artifact: `StatusUnknown` when the ledger
verification flag is false, otherwise `StatusApikeyRevoked` when a non-zero revocation
time is present, otherwise the loaded status. -/
def adjustedStatus (env : VerifyEnv) (ar : LcArtifact) (verified : Bool) : Status :=
  if verified = false then env.StatusUnknown
  else if ar.Revoked ≠ none ∧ ¬ (ar.Revoked.any Time.IsZero) then env.StatusApikeyRevoked
  else ar.Status

/-! ## Sample instances

Concrete collaborators on which the functions can be evaluated. -/

/-- A sample `Api`: ledger items are numbers, item `0` is malformed, and item `n + 1`
maps to an artifact of status `n`. Keys are joined with a dot. -/
def sampleApi : Api Nat Nat where
  VcnPrefix := "vcn"
  IndexDateRangePrefix := "idx."
  AppendPrefix := fun p key => bytesOf p ++ [46] ++ key
  AppendSignerId := fun signerId k => k ++ [46] ++ bytesOf signerId
  ZItemToLcArtifact := fun n =>
    if n = 0 then (none, some ⟨"malformed item"⟩)
    else (some { Status := (n : Int) - 1, Revoked := none, Attachments := [] }, none)
  ItemToLcArtifact := fun n =>
    if n = 0 then (none, some ⟨"malformed item"⟩)
    else (some { Status := (n : Int) - 1, Revoked := none, Attachments := [] }, none)

/-- A sample ledger that answers every request with the given items. -/
def sampleClient (zitems items : List Nat) : LcClient Nat Nat where
  ZScanExt := fun _ => .ok zitems
  HistoryExt := fun _ => .ok items

/-- A sample `Platform`: the ledger holds the given verifications for every hash, the
platform metadata is the same for every entry, and a status is named by its number. -/
def samplePlatform (verifications : List BlockchainVerification) (ar : ArtifactResponse) :
    Platform where
  BlockChainInspect := fun _ => .ok verifications
  LoadArtifact := fun _ _ => (some ar, none)
  MetaHash := fun v => toString v.Level
  StatusString := fun s => if s = 0 then "TRUSTED" else if s = 1 then "UNTRUSTED" else "UNKNOWN"

/-- A sample `VerifyEnv`: the ledger holds the given artifact with the given
verification flag, every attachment download gives the answer `download` (`none` for
success), and the exit code flag was left at its default. The status numbers are those
of an enumeration trusted, untrusted, unknown, unsupported, revoked. -/
def sampleVerifyEnv (ar : LcArtifact) (verified : Bool) (download : Option GoError) :
    VerifyEnv where
  lcFinalizeWithoutAlert := fun _ => none
  LoadArtifact := fun _ _ _ => .ok (ar, verified)
  DownloadAttachment := fun _ _ => download
  exitCodeFlag := .ok 0
  PrintWarning := fun _ _ => none
  ErrNotFound := ⟨"no artifact found"⟩
  ErrNotVerified := ⟨"artifact is not verified"⟩
  StatusUnknown := 2
  StatusApikeyRevoked := 4
  VcnDefaultExitCode := 0

/-! ## Lemmas on the requests -/

theorem replicate_append_cons (k : Nat) (a : Nat) (l : List Nat) :
    List.replicate k a ++ a :: l = a :: (List.replicate k a ++ l) := by
  induction k with
  | zero => rfl
  | succ k ih => simp [List.replicate_succ, ih]

theorem foldl_set_range (n k : Nat) (hk : k ≤ n) :
    (List.range k).foldl (fun (seekKey : List Nat) i => seekKey.set i 0xFF)
      (List.replicate n 0) = List.replicate k 0xFF ++ List.replicate (n - k) 0 := by
  induction k with
  | zero => simp
  | succ k ih =>
    rw [List.range_succ, List.foldl_append, ih (by omega)]
    obtain ⟨j, hj⟩ : ∃ j, n - k = j + 1 := ⟨n - k - 1, by omega⟩
    have hj' : n - (k + 1) = j := by omega
    rw [hj, hj']
    simp [List.set_append, List.replicate_succ, replicate_append_cons]

theorem seekKeyFF_eq (n : Nat) : seekKeyFF n = List.replicate n 0xFF := by
  unfold seekKeyFF
  rw [foldl_set_range n n (le_refl n)]
  simp

theorem signerRequest_last_pos (key : Bytes) (first last : Nat) (h : 0 < last) :
    signerRequest key first last =
      { Set := key, SeekKey := List.replicate 256 0xFF, SeekScore := MaxFloat64,
        SeekAtTx := MaxUint64, Limit := last, Desc := true, MinScore := none,
        MaxScore := none, SinceTx := MaxUint64, NoWait := true } := by
  unfold signerRequest
  rw [seekKeyFF_eq]
  simp only [h, if_true]

theorem signerRequest_last_zero (key : Bytes) (first : Nat) :
    signerRequest key first 0 =
      { Set := key, SeekKey := [], SeekScore := MaxFloat64,
        SeekAtTx := MaxUint64, Limit := first, Desc := false, MinScore := none,
        MaxScore := none, SinceTx := MaxUint64, NoWait := true } := by
  by_cases h : 0 < first
  · simp [signerRequest, h]
  · have : first = 0 := by omega
    simp [signerRequest, this]

theorem timeRangedRequest_last_pos (set : Bytes) (first last : Nat) (s e : Option Score)
    (h : 0 < last) :
    timeRangedRequest set first last s e =
      { Set := set, SeekKey := List.replicate 1024 0xFF, SeekScore := MaxFloat64,
        SeekAtTx := MaxUint64, Limit := last, Desc := true, MinScore := s,
        MaxScore := e, SinceTx := MaxUint64, NoWait := true } := by
  unfold timeRangedRequest
  rw [seekKeyFF_eq]
  simp only [h, if_true]

theorem timeRangedRequest_last_zero (set : Bytes) (first : Nat) (s e : Option Score) :
    timeRangedRequest set first 0 s e =
      { Set := set, SeekKey := [], SeekScore := MaxFloat64,
        SeekAtTx := MaxUint64, Limit := first, Desc := false, MinScore := s,
        MaxScore := e, SinceTx := MaxUint64, NoWait := true } := by
  by_cases h : 0 < first
  · simp [timeRangedRequest, h]
  · have : first = 0 := by omega
    simp [timeRangedRequest, this]

theorem historyRequest_last_pos (key : Bytes) (first last : Nat) (h : 0 < last) :
    historyRequest key first last =
      { Key := key, Limit := int32OfUint64 last, Desc := true } := by
  simp [historyRequest, h]

theorem historyRequest_last_zero (key : Bytes) (first : Nat) :
    historyRequest key first 0 =
      { Key := key, Limit := int32OfUint64 first, Desc := false } := by
  by_cases h : 0 < first
  · simp [historyRequest, h]
  · have : first = 0 := by omega
    simp [historyRequest, this]

theorem int32OfUint64_small (x : Nat) (h : x < 2 ^ 31) : int32OfUint64 x = x := by
  unfold int32OfUint64
  have h1 : x % 2 ^ 32 = x := Nat.mod_eq_of_lt (by omega)
  rw [h1, if_pos h]

theorem getSignerResults_calls {ZItem Item : Type} (api : Api ZItem Item) (key : Bytes)
    (u : LcClient ZItem Item) (first last : Nat) :
    (getSignerResults api key u first last).calls
      = [.ZScanExt (signerRequest key first last)] := by
  unfold getSignerResults
  dsimp only
  split <;> rfl

theorem getHistoryResults_calls {ZItem Item : Type} (api : Api ZItem Item) (key : Bytes)
    (u : LcClient ZItem Item) (first last : Nat) :
    (getHistoryResults api key u first last).calls
      = [.HistoryExt (historyRequest key first last)] := by
  unfold getHistoryResults
  dsimp only
  split <;> rfl

theorem getTimeRangedResults_calls_ok {ZItem Item : Type} (api : Api ZItem Item)
    (u : LcClient ZItem Item) (set : Bytes) (first last : Nat) (start end_ : String)
    (s e : Option Score) (h : rangeScores start end_ = .ok (s, e)) :
    (getTimeRangedResults api u set first last start end_).calls
      = [.ZScanExt (timeRangedRequest set first last s e)] := by
  unfold getTimeRangedResults
  rw [h]
  dsimp only
  split <;> rfl

theorem getTimeRangedResults_calls_error {ZItem Item : Type} (api : Api ZItem Item)
    (u : LcClient ZItem Item) (set : Bytes) (first last : Nat) (start end_ : String)
    (err : GoError) (h : rangeScores start end_ = .error err) :
    getTimeRangedResults api u set first last start end_
      = { calls := [], ret := .error (.error err) } := by
  unfold getTimeRangedResults
  rw [h]

/-! ## The query plan of `GetLcResults` -/

/-- C1: `GetLcResults` follows the decision table. With `start` and `end` both empty it
runs `getSignerResults` on the raw bytes of the hash when `signerID` is empty and
`getHistoryResults` on the signer-scoped key otherwise; with `start` or `end` non-empty
it runs `getTimeRangedResults`, on `IndexDateRangePrefix ++ hash` when `signerID` is
empty and on the signer-scoped key, without marker, otherwise. The run of
`GetLcResults` is the run of that one strategy, so at most one ledger request is
sent. -/
theorem C1_decision_table {ZItem Item : Type} (api : Api ZItem Item)
    (hash signerID : String) (u : LcClient ZItem Item) (first last : Nat)
    (start end_ : String) :
    (start = "" ∧ end_ = "" ∧ signerID = "" →
      GetLcResults api hash signerID u first last start end_
        = getSignerResults api (bytesOf hash) u first last) ∧
    (start = "" ∧ end_ = "" ∧ signerID ≠ "" →
      GetLcResults api hash signerID u first last start end_
        = getHistoryResults api
            (api.AppendSignerId hash (api.AppendPrefix api.VcnPrefix (bytesOf signerID)))
            u first last) ∧
    ((start ≠ "" ∨ end_ ≠ "") ∧ signerID = "" →
      GetLcResults api hash signerID u first last start end_
        = getTimeRangedResults api u (bytesOf api.IndexDateRangePrefix ++ bytesOf hash)
            first last start end_) ∧
    ((start ≠ "" ∨ end_ ≠ "") ∧ signerID ≠ "" →
      GetLcResults api hash signerID u first last start end_
        = getTimeRangedResults api u
            (api.AppendSignerId hash (api.AppendPrefix api.VcnPrefix (bytesOf signerID)))
            first last start end_) ∧
    (GetLcResults api hash signerID u first last start end_).calls.length ≤ 1 := by
  refine ⟨?_, ?_, ?_, ?_, ?_⟩
  · rintro ⟨h1, h2, h3⟩
    simp [GetLcResults, lcKey, h1, h2, h3]
  · rintro ⟨h1, h2, h3⟩
    simp [GetLcResults, lcKey, h1, h2, h3]
  · rintro ⟨h1, h3⟩
    simp only [GetLcResults, lcKey, h3, if_true]
    rw [if_pos h1]
  · rintro ⟨h1, h3⟩
    simp only [GetLcResults, lcKey, h3, if_false]
    rw [if_pos h1]
  · unfold GetLcResults
    dsimp only
    split
    · cases h : rangeScores start end_ with
      | error err => rw [getTimeRangedResults_calls_error _ _ _ _ _ _ _ err h]; simp
      | ok p =>
        obtain ⟨s, e⟩ := p
        rw [getTimeRangedResults_calls_ok _ _ _ _ _ _ _ s e h]; simp
    · split
      · rw [getSignerResults_calls]; simp
      · rw [getHistoryResults_calls]; simp

/-- Witness of C1: the scenario of the specification, fingerprint `abc123`, signer
`sig1`, a start and an end date. -/
theorem C1_decision_table_witness :
    GetLcResults sampleApi "abc123" "sig1" (sampleClient [] []) 0 0 "2024-01-01" "2024-01-31"
      = getTimeRangedResults sampleApi (sampleClient [] [])
          (sampleApi.AppendSignerId "abc123"
            (sampleApi.AppendPrefix sampleApi.VcnPrefix (bytesOf "sig1")))
          0 0 "2024-01-01" "2024-01-31" :=
  (C1_decision_table sampleApi "abc123" "sig1" (sampleClient [] []) 0 0
    "2024-01-01" "2024-01-31").2.2.2.1 ⟨Or.inl (by decide), by decide⟩

/-- C2, counterexample: with `first = 1` and `last = 2` both set, `GetLcResults` does
not fail: it sends a descending scan with limit 2 to the ledger and returns the
result built from the answer. -/
theorem C2_counterexample :
    (GetLcResults sampleApi "abc123" "" (sampleClient [1] []) 1 2 "" "").calls
        = [.ZScanExt { Set := [97, 98, 99, 49, 50, 51], SeekKey := List.replicate 256 0xFF,
                       SeekScore := MaxFloat64, SeekAtTx := MaxUint64, Limit := 2,
                       Desc := true, MinScore := none, MaxScore := none,
                       SinceTx := MaxUint64, NoWait := true }] ∧
    (GetLcResults sampleApi "abc123" "" (sampleClient [1] []) 1 2 "" "").ret
        = .ok [some { LcArtifact := some { Status := 0, Revoked := none, Attachments := [] },
                      Verified := true, Errors := [] }] := by
  constructor
  · have h : GetLcResults sampleApi "abc123" "" (sampleClient [1] []) 1 2 "" ""
        = getSignerResults sampleApi (bytesOf "abc123") (sampleClient [1] []) 1 2 := by
      simp [GetLcResults, lcKey]
    rw [h, getSignerResults_calls, signerRequest_last_pos _ _ _ (by decide)]
    have hb : bytesOf "abc123" = [97, 98, 99, 49, 50, 51] := by decide
    rw [hb]
  · rfl

/-- C2, as the code has it: `GetLcResults` has no check of `first` against `last`.
With both positive it behaves exactly as with `first = 0`: `last` takes precedence
(limit `last`, descending), and the ledger request is sent (one request, unless a
date of the time range does not parse). -/
theorem C2_last_takes_precedence {ZItem Item : Type} (api : Api ZItem Item)
    (hash signerID : String) (u : LcClient ZItem Item) (first last : Nat)
    (start end_ : String) (_hfirst : 0 < first) (hlast : 0 < last) :
    GetLcResults api hash signerID u first last start end_
      = GetLcResults api hash signerID u 0 last start end_ ∧
    ((∃ s e, rangeScores start end_ = .ok (s, e)) →
      (GetLcResults api hash signerID u first last start end_).calls.length = 1) := by
  have hs : ∀ key, signerRequest key first last = signerRequest key 0 last := fun key => by
    rw [signerRequest_last_pos _ _ _ hlast, signerRequest_last_pos _ _ _ hlast]
  have hh : ∀ key, historyRequest key first last = historyRequest key 0 last := fun key => by
    rw [historyRequest_last_pos _ _ _ hlast, historyRequest_last_pos _ _ _ hlast]
  have ht : ∀ key s e, timeRangedRequest key first last s e
      = timeRangedRequest key 0 last s e := fun key s e => by
    rw [timeRangedRequest_last_pos _ _ _ _ _ hlast, timeRangedRequest_last_pos _ _ _ _ _ hlast]
  constructor
  · simp only [GetLcResults, getSignerResults, getHistoryResults, getTimeRangedResults,
      hs, hh, ht]
  · rintro ⟨s, e, hse⟩
    unfold GetLcResults
    dsimp only
    split
    · rw [getTimeRangedResults_calls_ok _ _ _ _ _ _ _ s e hse]; rfl
    · split
      · rw [getSignerResults_calls]; rfl
      · rw [getHistoryResults_calls]; rfl

/-- Witness of C2 as the code has it, at `first = 1`, `last = 2`. -/
theorem C2_last_takes_precedence_witness :
    GetLcResults sampleApi "abc123" "" (sampleClient [1] []) 1 2 "" ""
      = GetLcResults sampleApi "abc123" "" (sampleClient [1] []) 0 2 "" "" :=
  (C2_last_takes_precedence sampleApi "abc123" "" (sampleClient [1] []) 1 2 "" ""
    (by decide) (by decide)).1

/-- C5, counterexample: with `first = 2 ^ 31` and `last = 0` the history request
carries the limit `-2 ^ 31`, not `2 ^ 31`. -/
theorem C5_counterexample :
    (getHistoryResults sampleApi [97] (sampleClient [] []) 2147483648 0).calls
      = [.HistoryExt { Key := [97], Limit := -2147483648, Desc := false }] := by
  rw [getHistoryResults_calls, historyRequest_last_zero]
  rfl

/-- C5, as the code has it: with exactly one of `first`, `last` non-zero, the scan
requests of `getSignerResults` and `getTimeRangedResults` carry that value as limit,
and all three requests are descending exactly when `last` is the non-zero one; with
both zero the limit is 0 and the direction ascending. The history request carries the
value converted to `int32`, which is the value itself when it is below `2 ^ 31`. -/
theorem C5_limit_and_direction {ZItem Item : Type} (api : Api ZItem Item)
    (u : LcClient ZItem Item) (key : Bytes) (first last : Nat) (start end_ : String)
    (hone : first = 0 ∨ last = 0) :
    (∃ req, (getSignerResults api key u first last).calls = [.ZScanExt req] ∧
        req.Limit = max first last ∧ req.Desc = decide (0 < last)) ∧
    (∀ s e, rangeScores start end_ = .ok (s, e) →
      ∃ req, (getTimeRangedResults api u key first last start end_).calls = [.ZScanExt req] ∧
        req.Limit = max first last ∧ req.Desc = decide (0 < last)) ∧
    (∃ req, (getHistoryResults api key u first last).calls = [.HistoryExt req] ∧
        req.Limit = int32OfUint64 (max first last) ∧ req.Desc = decide (0 < last) ∧
        (max first last < 2 ^ 31 → req.Limit = max first last)) := by
  rcases Nat.eq_zero_or_pos last with hl | hl
  · subst hl
    refine ⟨⟨_, getSignerResults_calls _ _ _ _ _, ?_⟩,
      fun s e h => ⟨_, getTimeRangedResults_calls_ok _ _ _ _ _ _ _ s e h, ?_⟩,
      ⟨_, getHistoryResults_calls _ _ _ _ _, ?_⟩⟩
    · rw [signerRequest_last_zero]; simp
    · rw [timeRangedRequest_last_zero]; simp
    · rw [historyRequest_last_zero]
      simpa using int32OfUint64_small first
  · have hf : first = 0 := by omega
    subst hf
    refine ⟨⟨_, getSignerResults_calls _ _ _ _ _, ?_⟩,
      fun s e h => ⟨_, getTimeRangedResults_calls_ok _ _ _ _ _ _ _ s e h, ?_⟩,
      ⟨_, getHistoryResults_calls _ _ _ _ _, ?_⟩⟩
    · rw [signerRequest_last_pos _ _ _ hl]; simp [hl]
    · rw [timeRangedRequest_last_pos _ _ _ _ _ hl]; simp [hl]
    · rw [historyRequest_last_pos _ _ _ hl]
      simpa [hl] using int32OfUint64_small last

/-- Witness of C5 as the code has it, at `first = 0`, `last = 2`. -/
theorem C5_limit_and_direction_witness :
    ∃ req, (getSignerResults sampleApi [97] (sampleClient [] []) 0 2).calls
        = [.ZScanExt req] ∧ req.Limit = max 0 2 ∧ req.Desc = decide (0 < 2) :=
  (C5_limit_and_direction sampleApi (sampleClient [] []) [97] 0 2 "" ""
    (Or.inl rfl)).1

/-- C6: for `last > 0` the seek key sent by `getSignerResults` is 256 bytes and the one
sent by `getTimeRangedResults` 1024 bytes, every byte `0xFF`; for `last = 0`, whatever
`first` is, the seek key is empty in both. (`getTimeRangedResults` sends its request
when the dates parse, and none otherwise.) -/
theorem C6_seek_key {ZItem Item : Type} (api : Api ZItem Item)
    (u : LcClient ZItem Item) (key : Bytes) (first last : Nat) (start end_ : String) :
    (0 < last →
      (∃ req, (getSignerResults api key u first last).calls = [.ZScanExt req] ∧
        req.SeekKey.length = 256 ∧ ∀ b ∈ req.SeekKey, b = 0xFF) ∧
      (∀ s e, rangeScores start end_ = .ok (s, e) →
        ∃ req, (getTimeRangedResults api u key first last start end_).calls
            = [.ZScanExt req] ∧
          req.SeekKey.length = 1024 ∧ ∀ b ∈ req.SeekKey, b = 0xFF)) ∧
    (last = 0 →
      (∃ req, (getSignerResults api key u first last).calls = [.ZScanExt req] ∧
        req.SeekKey = []) ∧
      (∀ s e, rangeScores start end_ = .ok (s, e) →
        ∃ req, (getTimeRangedResults api u key first last start end_).calls
            = [.ZScanExt req] ∧ req.SeekKey = [])) ∧
    (∀ err, rangeScores start end_ = .error err →
      (getTimeRangedResults api u key first last start end_).calls = []) := by
  refine ⟨fun hl => ⟨⟨_, getSignerResults_calls _ _ _ _ _, ?_⟩,
      fun s e h => ⟨_, getTimeRangedResults_calls_ok _ _ _ _ _ _ _ s e h, ?_⟩⟩,
    fun hl => ⟨⟨_, getSignerResults_calls _ _ _ _ _, ?_⟩,
      fun s e h => ⟨_, getTimeRangedResults_calls_ok _ _ _ _ _ _ _ s e h, ?_⟩⟩,
    fun err h => ?_⟩
  · rw [signerRequest_last_pos _ _ _ hl]
    exact ⟨List.length_replicate _ _, fun b hb => List.eq_of_mem_replicate hb⟩
  · rw [timeRangedRequest_last_pos _ _ _ _ _ hl]
    exact ⟨List.length_replicate _ _, fun b hb => List.eq_of_mem_replicate hb⟩
  · subst hl; rw [signerRequest_last_zero]
  · subst hl; rw [timeRangedRequest_last_zero]
  · rw [getTimeRangedResults_calls_error _ _ _ _ _ _ _ err h]

/-- Witness of C6: the scenario of the specification, no signer and `last = 2`. -/
theorem C6_seek_key_witness :
    ∃ req, (getSignerResults sampleApi (bytesOf "abc123") (sampleClient [] []) 0 2).calls
        = [.ZScanExt req] ∧ req.SeekKey.length = 256 ∧ ∀ b ∈ req.SeekKey, b = 0xFF :=
  ((C6_seek_key sampleApi (sampleClient [] []) (bytesOf "abc123") 0 2 "" "").1
    (by decide)).1

/-! ## The result loops -/

theorem set_length_append {α : Type} (done : List α) (x y : α) (rest : List α) :
    (done ++ x :: rest).set done.length y = (done ++ [y]) ++ rest := by
  simp [List.set_append]

theorem zitemsLoop_ok {ZItem Item : Type} (api : Api ZItem Item) (rest : List ZItem) :
    ∀ done : List (Option LcResult),
      (∀ v ∈ rest, (api.ZItemToLcArtifact v).2 = none) →
      zitemsLoop api rest done.length (done ++ List.replicate rest.length none)
        = .ok (done ++ rest.map fun v => some (NewLcResult (api.ZItemToLcArtifact v).1 true)) := by
  induction rest with
  | nil => intro done _; simp [zitemsLoop]
  | cons v rest ih =>
    intro done h
    have hv : (api.ZItemToLcArtifact v).2 = none := h v (List.mem_cons_self _ _)
    have hrest : ∀ w ∈ rest, (api.ZItemToLcArtifact w).2 = none :=
      fun w hw => h w (List.mem_cons_of_mem _ hw)
    have hpair : api.ZItemToLcArtifact v = ((api.ZItemToLcArtifact v).1, none) := by
      rw [← hv]
    unfold zitemsLoop
    rw [hpair]
    dsimp only
    rw [List.length_cons, List.replicate_succ, set_length_append]
    have := ih (done ++ [some (NewLcResult (api.ZItemToLcArtifact v).1 true)]) hrest
    rw [List.length_append, List.length_singleton] at this
    rw [this]
    simp

theorem itemsLoop_ok {ZItem Item : Type} (api : Api ZItem Item) (rest : List Item) :
    ∀ done : List (Option LcResult),
      (∀ v ∈ rest, (api.ItemToLcArtifact v).2 = none) →
      itemsLoop api rest done.length (done ++ List.replicate rest.length none)
        = .ok (done ++ rest.map fun v => some (NewLcResult (api.ItemToLcArtifact v).1 true)) := by
  induction rest with
  | nil => intro done _; simp [itemsLoop]
  | cons v rest ih =>
    intro done h
    have hv : (api.ItemToLcArtifact v).2 = none := h v (List.mem_cons_self _ _)
    have hrest : ∀ w ∈ rest, (api.ItemToLcArtifact w).2 = none :=
      fun w hw => h w (List.mem_cons_of_mem _ hw)
    have hpair : api.ItemToLcArtifact v = ((api.ItemToLcArtifact v).1, none) := by
      rw [← hv]
    unfold itemsLoop
    rw [hpair]
    dsimp only
    rw [List.length_cons, List.replicate_succ, set_length_append]
    have := ih (done ++ [some (NewLcResult (api.ItemToLcArtifact v).1 true)]) hrest
    rw [List.length_append, List.length_singleton] at this
    rw [this]
    simp

theorem verificationsLoop_eq (p : Platform) (hash : String) (z : Result)
    (rest : List BlockchainVerification) :
    ∀ done : List Result,
      verificationsLoop p hash rest done.length (done ++ List.replicate rest.length z)
        = done ++ rest.map (reconcile p hash) := by
  induction rest with
  | nil => intro done; simp [verificationsLoop]
  | cons v rest ih =>
    intro done
    unfold verificationsLoop
    rw [List.length_cons, List.replicate_succ, set_length_append]
    have := ih (done ++ [reconcile p hash v])
    rw [List.length_append, List.length_singleton] at this
    rw [this]
    simp

theorem GetResults_eq (p : Platform) (hash : String)
    (verifications : List BlockchainVerification)
    (h : p.BlockChainInspect hash = .ok verifications) :
    GetResults p hash = .ok (verifications.map (reconcile p hash)) := by
  unfold GetResults
  rw [h]
  have := verificationsLoop_eq p hash
    { Artifact := none, ArtifactResponse := none, Verification := none, Errors := [] }
    verifications []
  simp only [List.length_nil, List.nil_append] at this
  simp only [this]

theorem reconcile_Verification (p : Platform) (hash : String) (v : BlockchainVerification) :
    (reconcile p hash v).Verification = some v := by
  unfold reconcile
  rcases p.LoadArtifact hash (p.MetaHash v) with ⟨ar, err⟩
  cases ar <;> cases err <;> simp only [NewResult, Result.AddError] <;>
    (repeat' split) <;> rfl

/-- C9: order and count are preserved. When every item of the ledger answer maps
without error, each of `getSignerResults`, `getHistoryResults` and
`getTimeRangedResults` returns, position by position, the result wrapping the artifact
mapped from the item at that position; `GetResults` returns one result per
verification, holding that verification, in the order received. -/
theorem C9_order_and_count {ZItem Item : Type} (api : Api ZItem Item)
    (u : LcClient ZItem Item) (p : Platform) (key : Bytes) (first last : Nat)
    (start end_ hash : String) :
    (∀ zitems, u.ZScanExt (signerRequest key first last) = .ok zitems →
      (∀ v ∈ zitems, (api.ZItemToLcArtifact v).2 = none) →
      (getSignerResults api key u first last).ret
        = .ok (zitems.map fun v => some (NewLcResult (api.ZItemToLcArtifact v).1 true))) ∧
    (∀ items, u.HistoryExt (historyRequest key first last) = .ok items →
      (∀ v ∈ items, (api.ItemToLcArtifact v).2 = none) →
      (getHistoryResults api key u first last).ret
        = .ok (items.map fun v => some (NewLcResult (api.ItemToLcArtifact v).1 true))) ∧
    (∀ s e zitems, rangeScores start end_ = .ok (s, e) →
      u.ZScanExt (timeRangedRequest key first last s e) = .ok zitems →
      (∀ v ∈ zitems, (api.ZItemToLcArtifact v).2 = none) →
      (getTimeRangedResults api u key first last start end_).ret
        = .ok (zitems.map fun v => some (NewLcResult (api.ZItemToLcArtifact v).1 true))) ∧
    (∀ verifications, p.BlockChainInspect hash = .ok verifications →
      ∃ results, GetResults p hash = .ok results ∧
        results.length = verifications.length ∧
        results.map (fun r => r.Verification) = verifications.map some) := by
  refine ⟨?_, ?_, ?_, ?_⟩
  · intro zitems hz hall
    unfold getSignerResults
    dsimp only
    rw [hz]
    simpa using zitemsLoop_ok api zitems [] hall
  · intro items hz hall
    unfold getHistoryResults
    dsimp only
    rw [hz]
    simpa using itemsLoop_ok api items [] hall
  · intro s e zitems hse hz hall
    unfold getTimeRangedResults
    rw [hse]
    dsimp only
    rw [hz]
    simpa using zitemsLoop_ok api zitems [] hall
  · intro verifications hv
    refine ⟨_, GetResults_eq p hash verifications hv, by simp, ?_⟩
    rw [List.map_map]
    exact List.map_congr_left fun v _ => reconcile_Verification p hash v

/-- Witness of C9: a descending scan answered with the items 3, 1, 2 gives the results
for 3, 1, 2 in that order. -/
theorem C9_order_and_count_witness :
    (getSignerResults sampleApi [97] (sampleClient [3, 1, 2] []) 0 2).ret
      = .ok ([3, 1, 2].map fun v =>
          some (NewLcResult (sampleApi.ZItemToLcArtifact v).1 true)) :=
  (C9_order_and_count sampleApi (sampleClient [3, 1, 2] [])
    (samplePlatform [] ⟨"TRUSTED", 0⟩) [97] 0 2 "" "" "abc123").1
    [3, 1, 2] rfl (by decide)

/-- C4: in `GetResults`, for a verification `v` whose platform artifact `ar` was loaded
(non-nil, no error), the errors of that result are exactly: the status mismatch error,
naming both values, iff `v.Status.String()` differs from `ar.Status`, followed by the
level mismatch error iff `v.Level` differs from `ar.Level`. Record and metadata are
both present in the result. -/
theorem C4_mismatch_errors (p : Platform) (hash : String)
    (verifications : List BlockchainVerification)
    (hinspect : p.BlockChainInspect hash = .ok verifications)
    (i : Nat) (v : BlockchainVerification) (ar : ArtifactResponse)
    (hv : verifications[i]? = some v)
    (hload : p.LoadArtifact hash (p.MetaHash v) = (some ar, none)) :
    ∃ results r, GetResults p hash = .ok results ∧ results[i]? = some r ∧
      r.Verification = some v ∧ r.ArtifactResponse = some ar ∧
      r.Errors =
        (if p.StatusString v.Status ≠ ar.Status then
          [statusNotInSync (p.StatusString v.Status) ar.Status] else []) ++
        (if v.Level ≠ ar.Level then [levelNotInSync v.Level ar.Level] else []) := by
  refine ⟨_, reconcile p hash v, GetResults_eq p hash verifications hinspect, ?_,
    reconcile_Verification p hash v, ?_, ?_⟩
  · simp [List.getElem?_map, hv]
  · unfold reconcile
    rw [hload]
    simp only [NewResult, Result.AddError]
    (repeat' split) <;> rfl
  · unfold reconcile
    rw [hload]
    simp only [NewResult, Result.AddError]
    (repeat' split) <;> simp_all

/-- Witness of C4: the scenario of the specification, ledger status `TRUSTED`, platform
status `UNTRUSTED`, equal levels: one error, naming both values. -/
theorem C4_mismatch_errors_witness :
    ∃ results r,
      GetResults (samplePlatform [⟨0, 1⟩] ⟨"UNTRUSTED", 1⟩) "abc123" = .ok results ∧
      results[0]? = some r ∧
      r.Verification = some ⟨0, 1⟩ ∧ r.ArtifactResponse = some ⟨"UNTRUSTED", 1⟩ ∧
      r.Errors =
        (if (samplePlatform [⟨0, 1⟩] ⟨"UNTRUSTED", 1⟩).StatusString 0 ≠ "UNTRUSTED" then
          [statusNotInSync ((samplePlatform [⟨0, 1⟩] ⟨"UNTRUSTED", 1⟩).StatusString 0)
            "UNTRUSTED"] else []) ++
        (if (1 : Int) ≠ 1 then [levelNotInSync 1 1] else []) :=
  C4_mismatch_errors (samplePlatform [⟨0, 1⟩] ⟨"UNTRUSTED", 1⟩) "abc123" [⟨0, 1⟩] rfl
    0 ⟨0, 1⟩ ⟨"UNTRUSTED", 1⟩ rfl rfl

/-- C3: the code at a batch with one malformed item (item `0`) between two well-formed
ones. `getHistoryResults` returns the mapping error and no results;
`getSignerResults` and `getTimeRangedResults` call `AddError` on the still nil
`results[1]` and end in a nil pointer dereference. None returns three results. -/
theorem C3_malformed_item_aborts :
    (getHistoryResults sampleApi [97] (sampleClient [] [1, 0, 2]) 0 0).ret
      = .error (.error ⟨"malformed item"⟩) ∧
    (getSignerResults sampleApi [97] (sampleClient [1, 0, 2] []) 0 0).ret
      = .error .panic ∧
    (getTimeRangedResults sampleApi (sampleClient [1, 0, 2] []) [97] 0 0 "2024-01-01" "").ret
      = .error .panic := by
  refine ⟨by rfl, by rfl, by rfl⟩

/-! ## The exit code of `lcVerify` -/

theorem downloadAttachments_none (env : VerifyEnv) (ar : LcArtifact)
    (atts : List Attachment) (h : ∀ a ∈ atts, env.DownloadAttachment a ar = none) :
    downloadAttachments env ar atts = none := by
  induction atts with
  | nil => rfl
  | cons a rest ih =>
    unfold downloadAttachments
    rw [h a (List.mem_cons_self _ _)]
    exact ih fun b hb => h b (List.mem_cons_of_mem _ hb)

/-- The artifact as `lcVerify` holds it after the revocation test, which is the one
handed to `DownloadAttachment`. -/
theorem lcVerify_loaded (env : VerifyEnv) (a : Artifact)
    (signerID uid output : String) (ar : LcArtifact) (verified : Bool)
    (hfin : env.lcFinalizeWithoutAlert output = none)
    (hload : env.LoadArtifact a.Hash signerID uid = .ok (ar, verified))
    (hflag : env.exitCodeFlag = .ok env.VcnDefaultExitCode) :
    lcVerify env a signerID uid output 0 =
      match (if output = "attachments" then
          downloadAttachments env
            (if ar.Revoked ≠ none ∧ ¬ (ar.Revoked.any Time.IsZero) then
              { ar with Status := env.StatusApikeyRevoked } else ar) ar.Attachments
        else none) with
      | some err =>
        { exitCode := if ar.Revoked ≠ none ∧ ¬ (ar.Revoked.any Time.IsZero) then
            env.StatusApikeyRevoked.Int else 0,
          printed := none, err := some err }
      | none =>
        { exitCode := (adjustedStatus env ar verified).Int,
          printed := some (NewLcResult
            (some { ar with Status := adjustedStatus env ar verified }) verified),
          err := none } := by
  unfold lcVerify adjustedStatus Status.Int
  rw [hfin, hload, hflag]
  by_cases hrev : ar.Revoked ≠ none ∧ ¬ (ar.Revoked.any Time.IsZero)
  · simp only [if_pos hrev]
    generalize (if output = "attachments" then downloadAttachments env _ _ else none) = d
    cases d <;> cases verified <;> simp
  · simp only [if_neg hrev]
    generalize (if output = "attachments" then downloadAttachments env _ _ else none) = d
    cases d <;> cases verified <;> simp

/-- C10, counterexample: the output is `attachments` and the download of the one
attachment fails. The artifact loads without error, the exit code flag is the default
and the stored exit code is 0 on entry, yet `lcVerify` returns the download error
before the not-verified test and before the exit code is written: nothing is printed
and the stored exit code is still 0, for an artifact of status 1 that is verified
(adjusted status 1) and for an artifact of status 0 that is not verified (adjusted
status `StatusUnknown`, 2). -/
theorem C10_counterexample :
    lcVerify (sampleVerifyEnv ⟨1, none, [⟨"doc.pdf"⟩]⟩ true (some ⟨"download failed"⟩))
        ⟨"abc123"⟩ "" "" "attachments" 0
      = { exitCode := 0, printed := none, err := some ⟨"download failed"⟩ } ∧
    adjustedStatus (sampleVerifyEnv ⟨1, none, [⟨"doc.pdf"⟩]⟩ true (some ⟨"download failed"⟩))
        ⟨1, none, [⟨"doc.pdf"⟩]⟩ true = 1 ∧
    lcVerify (sampleVerifyEnv ⟨0, none, [⟨"doc.pdf"⟩]⟩ false (some ⟨"download failed"⟩))
        ⟨"abc123"⟩ "" "" "attachments" 0
      = { exitCode := 0, printed := none, err := some ⟨"download failed"⟩ } ∧
    adjustedStatus (sampleVerifyEnv ⟨0, none, [⟨"doc.pdf"⟩]⟩ false (some ⟨"download failed"⟩))
        ⟨0, none, [⟨"doc.pdf"⟩]⟩ false = 2 := by
  refine ⟨by decide, by decide, by decide, by decide⟩

/-- C10, as the code has it: in `lcVerify`, when the artifact loads without error (the
hook before the load did not fail), the exit code flag is `VcnDefaultExitCode`, the
stored exit code is 0 on entry, and no attachment download fails when the output is
`attachments`, the artifact is printed with the adjusted status (`StatusUnknown` when
not verified, even if revoked, else `StatusApikeyRevoked` when a non-zero revocation
time is present, else the loaded status), the stored exit code is the integer value
of that status, and no error is returned. -/
theorem C10_exit_code_is_adjusted_status (env : VerifyEnv) (a : Artifact)
    (signerID uid output : String) (ar : LcArtifact) (verified : Bool)
    (hfin : env.lcFinalizeWithoutAlert output = none)
    (hload : env.LoadArtifact a.Hash signerID uid = .ok (ar, verified))
    (hflag : env.exitCodeFlag = .ok env.VcnDefaultExitCode)
    (hdl : output = "attachments" → ∀ att ∈ ar.Attachments,
      env.DownloadAttachment att
        (if ar.Revoked ≠ none ∧ ¬ (ar.Revoked.any Time.IsZero) then
          { ar with Status := env.StatusApikeyRevoked } else ar) = none) :
    lcVerify env a signerID uid output 0 =
      { exitCode := (adjustedStatus env ar verified).Int,
        printed := some (NewLcResult
          (some { ar with Status := adjustedStatus env ar verified }) verified),
        err := none } := by
  rw [lcVerify_loaded env a signerID uid output ar verified hfin hload hflag]
  by_cases hout : output = "attachments"
  · rw [if_pos hout, downloadAttachments_none _ _ _ (hdl hout)]
  · rw [if_neg hout]

/-- Witness of C10 as the code has it: an artifact with one attachment that is revoked
and not verified, the output `attachments`, the download succeeding: the stored exit
code is that of `StatusUnknown`. -/
theorem C10_exit_code_is_adjusted_status_witness :
    lcVerify (sampleVerifyEnv ⟨0, some ⟨1600000000, 0⟩, [⟨"doc.pdf"⟩]⟩ false none)
        ⟨"abc123"⟩ "" "" "attachments" 0
      = { exitCode := 2,
          printed := some (NewLcResult
            (some ⟨2, some ⟨1600000000, 0⟩, [⟨"doc.pdf"⟩]⟩) false),
          err := none } :=
  C10_exit_code_is_adjusted_status
    (sampleVerifyEnv ⟨0, some ⟨1600000000, 0⟩, [⟨"doc.pdf"⟩]⟩ false none) ⟨"abc123"⟩
    "" "" "attachments" ⟨0, some ⟨1600000000, 0⟩, [⟨"doc.pdf"⟩]⟩ false rfl rfl rfl
    (fun _ _ _ => rfl)

/-! ## The score of a date -/

theorem wrapInt64_range (n : Int) : -2 ^ 63 ≤ wrapInt64 n ∧ wrapInt64 n < 2 ^ 63 := by
  unfold wrapInt64
  omega

theorem wrapInt64_of_range (n : Int) (h1 : -2 ^ 63 ≤ n) (h2 : n < 2 ^ 63) :
    wrapInt64 n = n := by
  unfold wrapInt64
  omega

theorem wrapInt64_dvd (n : Int) (h : (65536 : Int) ∣ n) : (65536 : Int) ∣ wrapInt64 n := by
  unfold wrapInt64
  omega

/-- An `int64` that is a multiple of `2 ^ 16` converts to `float64` exactly. -/
theorem float64OfInt64_exact (n : Int) (h1 : -2 ^ 63 ≤ n) (h2 : n < 2 ^ 63)
    (hdvd : (65536 : Int) ∣ n) : float64OfInt64 n = n := by
  unfold float64OfInt64
  dsimp only
  split
  · rfl
  · rename_i hbig
    have hm0 : n.natAbs ≠ 0 := by omega
    have hmle : n.natAbs < 2 ^ 64 := by omega
    have hlog1 : Nat.log 2 n.natAbs < 64 := Nat.log_lt_of_lt_pow hm0 hmle
    have hlog2 : 53 ≤ Nat.log 2 n.natAbs :=
      Nat.le_log_of_pow_le (by decide) (by omega)
    have hmdvd : 65536 ∣ n.natAbs := by omega
    obtain ⟨e, he⟩ : ∃ e, Nat.log 2 n.natAbs - 52 = e := ⟨_, rfl⟩
    rw [he]
    have he1 : 1 ≤ e := by omega
    have he2 : e ≤ 11 := by omega
    have hpow : 2 ^ e ∣ n.natAbs :=
      Nat.dvd_trans (Nat.pow_dvd_pow 2 (by omega : e ≤ 16)) hmdvd
    have hr : n.natAbs % 2 ^ e = 0 := Nat.mod_eq_zero_of_dvd hpow
    have hhalf : 0 < 2 ^ (e - 1) := Nat.pow_pos (by decide)
    rw [hr]
    have hcond : ¬ (2 ^ (e - 1) < 0 ∨ (0 = 2 ^ (e - 1) ∧ n.natAbs / 2 ^ e % 2 = 1)) := by
      omega
    rw [if_neg hcond, Nat.div_mul_cancel hpow]
    exact Int.sign_mul_natAbs n

theorem Date_UnixNano (year month day : Nat) :
    (Date year month day).UnixNano
      = wrapInt64 (daysSinceEpoch year month day * 86400000000000) := by
  unfold Date Time.UnixNano
  congr 1
  simp only [Nat.cast_zero, add_zero]
  ring

theorem Date_UnixNano_dvd (year month day : Nat) :
    (65536 : Int) ∣ (Date year month day).UnixNano := by
  rw [Date_UnixNano]
  apply wrapInt64_dvd
  omega

theorem float64_Date_UnixNano (year month day : Nat) :
    float64OfInt64 (Date year month day).UnixNano = (Date year month day).UnixNano := by
  have hr := wrapInt64_range (daysSinceEpoch year month day * 86400000000000)
  rw [← Date_UnixNano] at hr
  exact float64OfInt64_exact _ hr.1 hr.2 (Date_UnixNano_dvd year month day)

theorem parseDateShortForm_ok (value : String) (t : Time)
    (h : parseDateShortForm value = .ok t) :
    ∃ d, parseCivil value = some d ∧ t = Date d.year d.month d.day := by
  unfold parseDateShortForm at h
  split at h
  · rename_i d hd
    exact ⟨d, hd, by injection h with h; exact h.symm⟩
  · exact absurd h (by simp)

/-- C8: the score conversion of `getTimeRangedResults` loses nothing. For every date
string that parses, the `float64` score is exactly the `int64` value of `UnixNano()`;
that value is a multiple of `2 ^ 16` in the `int64` range, so it has a significand of
at most 48 bits. -/
theorem C8_score_is_exact (value : String) (t : Time)
    (h : parseDateShortForm value = .ok t) :
    dateScore value = .ok { Score := t.UnixNano } ∧
    float64OfInt64 t.UnixNano = t.UnixNano ∧
    ∃ m : Int, t.UnixNano = m * 2 ^ 16 ∧ -2 ^ 47 ≤ m ∧ m < 2 ^ 47 := by
  obtain ⟨d, _, ht⟩ := parseDateShortForm_ok value t h
  have hexact : float64OfInt64 t.UnixNano = t.UnixNano := by
    rw [ht]; exact float64_Date_UnixNano _ _ _
  refine ⟨?_, hexact, ?_⟩
  · unfold dateScore
    rw [h]
    dsimp only
    rw [hexact]
  · have hdvd : (65536 : Int) ∣ t.UnixNano := by rw [ht]; exact Date_UnixNano_dvd _ _ _
    have hr : -2 ^ 63 ≤ t.UnixNano ∧ t.UnixNano < 2 ^ 63 := by
      rw [ht, Date_UnixNano]; exact wrapInt64_range _
    obtain ⟨m, hm⟩ := hdvd
    refine ⟨m, by omega, by omega, by omega⟩

/-- Witness of C8: the date 2024-01-01. -/
theorem C8_score_is_exact_witness :
    dateScore "2024-01-01" = .ok { Score := 1704067200000000000 } :=
  (C8_score_is_exact "2024-01-01" ⟨1704067200, 0⟩ rfl).1

/-! ## Calendar order and the order of scores -/

theorem isLeap_iff (year : Nat) :
    isLeap year = true ↔ year % 4 = 0 ∧ (year % 100 ≠ 0 ∨ year % 400 = 0) := by
  simp [isLeap]

theorem monthStart_succ (year month : Nat) (hm1 : 1 ≤ month) (hm2 : month ≤ 12) :
    monthStart year (month + 1) = monthStart year month + daysIn month year := by
  unfold monthStart daysIn
  by_cases hl : isLeap year = true <;>
    interval_cases month <;> simp [daysBefore, hl]

theorem monthStart_mono (year m1 m2 : Nat) (hm1 : 1 ≤ m1) (h : m1 ≤ m2) (hm2 : m2 ≤ 13) :
    monthStart year m1 ≤ monthStart year m2 := by
  induction m2 with
  | zero => omega
  | succ k ih =>
    rcases Nat.lt_or_ge m1 (k + 1) with hlt | hge
    · have h1 := ih (by omega) (by omega)
      have h2 := monthStart_succ year k (by omega) (by omega)
      omega
    · have : m1 = k + 1 := by omega
      subst this
      exact le_refl _

theorem monthStart_13 (year : Nat) :
    monthStart year 13 = 365 + (if isLeap year then 1 else 0) := by
  unfold monthStart
  by_cases hl : isLeap year = true <;> simp [daysBefore, hl]

theorem dayOfYear_bound (year month day : Nat) (hm1 : 1 ≤ month) (hm2 : month ≤ 12)
    (hd2 : day ≤ daysIn month year) :
    monthStart year month + (day - 1) < 365 + (if isLeap year then 1 else 0) + (1 - day) := by
  have h1 := monthStart_succ year month hm1 hm2
  have h2 := monthStart_mono year (month + 1) 13 (by omega) (by omega) (le_refl _)
  rw [monthStart_13] at h2
  omega

theorem dayOfYear_mono (year m1 d1 m2 d2 : Nat) (hm1 : 1 ≤ m1) (hm2 : m2 ≤ 12)
    (hd1 : 1 ≤ d1) (hd1' : d1 ≤ daysIn m1 year) (hd2 : 1 ≤ d2)
    (h : m1 < m2 ∨ (m1 = m2 ∧ d1 < d2)) :
    monthStart year m1 + (d1 - 1) < monthStart year m2 + (d2 - 1) := by
  rcases h with h | ⟨h, hd⟩
  · have h1 := monthStart_succ year m1 hm1 (by omega)
    have h2 := monthStart_mono year (m1 + 1) m2 (by omega) (by omega) (by omega)
    omega
  · subst h
    omega

theorem daysBeforeYear_succ (year : Nat) :
    daysBeforeYear (year + 1) = daysBeforeYear year + 365 + (if isLeap year then 1 else 0) := by
  have e4 : (year + 1 + 3) / 4 = (year + 3) / 4 + (if year % 4 = 0 then 1 else 0) := by
    split <;> omega
  have e100 : (year + 1 + 99) / 100 = (year + 99) / 100 + (if year % 100 = 0 then 1 else 0) := by
    split <;> omega
  have e400 : (year + 1 + 399) / 400
      = (year + 399) / 400 + (if year % 400 = 0 then 1 else 0) := by
    split <;> omega
  have b100 : (year + 99) / 100 ≤ year := by omega
  have hleap : (if isLeap year then 1 else 0)
      = (if year % 4 = 0 ∧ (year % 100 ≠ 0 ∨ year % 400 = 0) then 1 else 0) := by
    by_cases hl : isLeap year = true
    · rw [if_pos hl, if_pos ((isLeap_iff year).1 hl)]
    · rw [if_neg hl, if_neg (fun hc => hl ((isLeap_iff year).2 hc))]
  have hsum : (if year % 4 = 0 ∧ (year % 100 ≠ 0 ∨ year % 400 = 0) then 1 else 0)
        + (if year % 100 = 0 then 1 else 0)
      = (if year % 4 = 0 then 1 else 0) + (if year % 400 = 0 then 1 else 0) := by
    by_cases h4 : year % 4 = 0 <;> by_cases h100 : year % 100 = 0 <;>
      by_cases h400 : year % 400 = 0 <;> simp [h4, h100, h400] <;> omega
  have hle : (if year % 100 = 0 then 1 else 0) ≤ (if year % 4 = 0 then 1 else 0) := by
    split <;> split <;> omega
  unfold daysBeforeYear
  rw [e4, e100, e400, hleap]
  generalize (year + 3) / 4 = A at *
  generalize (year + 99) / 100 = B at *
  generalize (year + 399) / 400 = C at *
  generalize (if year % 4 = 0 ∧ (year % 100 ≠ 0 ∨ year % 400 = 0) then 1 else 0) = l at *
  generalize (if year % 4 = 0 then 1 else 0) = a at *
  generalize (if year % 100 = 0 then 1 else 0) = b at *
  generalize (if year % 400 = 0 then 1 else 0) = c at *
  omega

theorem daysBeforeYear_mono (y1 y2 : Nat) (h : y1 ≤ y2) :
    daysBeforeYear y1 ≤ daysBeforeYear y2 := by
  induction y2 with
  | zero =>
    have : y1 = 0 := by omega
    subst this
    exact le_refl _
  | succ k ih =>
    rcases Nat.lt_or_ge y1 (k + 1) with hlt | hge
    · have h1 := ih (by omega)
      have h2 := daysBeforeYear_succ k
      omega
    · have : y1 = k + 1 := by omega
      subst this
      exact le_refl _

theorem daysBeforeYear_step (y1 y2 : Nat) (h : y1 < y2) :
    daysBeforeYear y1 + 365 + (if isLeap y1 then 1 else 0) ≤ daysBeforeYear y2 := by
  rw [← daysBeforeYear_succ]
  exact daysBeforeYear_mono _ _ h

theorem daysSinceEpoch_eq (year month day : Nat) :
    daysSinceEpoch year month day
      = ((daysBeforeYear year + monthStart year month + (day - 1) : Nat) : Int) - 719528 := by
  unfold daysSinceEpoch monthStart
  rw [← Nat.add_assoc (daysBeforeYear year)]

theorem daysSinceEpoch_strictMono (a b : CivilDate) (ha : a.Valid) (hb : b.Valid)
    (h : a.earlier b) :
    daysSinceEpoch a.year a.month a.day < daysSinceEpoch b.year b.month b.day := by
  rw [daysSinceEpoch_eq, daysSinceEpoch_eq]
  rcases h with h | ⟨hy, h⟩
  · have h1 := dayOfYear_bound a.year a.month a.day ha.month_pos ha.month_le ha.day_le
    have h2 := daysBeforeYear_step a.year b.year h
    have h3 := ha.day_pos
    omega
  · have h1 := dayOfYear_mono a.year a.month a.day b.month b.day ha.month_pos hb.month_le
      ha.day_pos ha.day_le hb.day_pos h
    rw [← hy]
    omega

theorem CivilDate.trichotomy (a b : CivilDate) : a.earlier b ∨ a = b ∨ b.earlier a := by
  obtain ⟨y1, m1, d1⟩ := a
  obtain ⟨y2, m2, d2⟩ := b
  simp only [CivilDate.earlier, CivilDate.mk.injEq]
  omega

theorem CivilDate.earlier_asymm (a b : CivilDate) (h : a.earlier b) : ¬ b.earlier a := by
  unfold CivilDate.earlier at h ⊢
  omega

theorem CivilDate.earlier_irrefl (a : CivilDate) : ¬ a.earlier a := by
  unfold CivilDate.earlier
  omega

theorem daysSinceEpoch_lt_iff (a b : CivilDate) (ha : a.Valid) (hb : b.Valid) :
    daysSinceEpoch a.year a.month a.day < daysSinceEpoch b.year b.month b.day
      ↔ a.earlier b := by
  constructor
  · intro h
    rcases CivilDate.trichotomy a b with h' | h' | h'
    · exact h'
    · subst h'; omega
    · have := daysSinceEpoch_strictMono b a hb ha h'; omega
  · exact daysSinceEpoch_strictMono a b ha hb

theorem daysSinceEpoch_inj (a b : CivilDate) (ha : a.Valid) (hb : b.Valid)
    (h : daysSinceEpoch a.year a.month a.day = daysSinceEpoch b.year b.month b.day) :
    a = b := by
  rcases CivilDate.trichotomy a b with h' | h' | h'
  · have := daysSinceEpoch_strictMono a b ha hb h'; omega
  · exact h'
  · have := daysSinceEpoch_strictMono b a hb ha h'; omega

theorem daysSinceEpoch_bounds (a : CivilDate) (ha : a.Valid) :
    -719528 ≤ daysSinceEpoch a.year a.month a.day ∧
      daysSinceEpoch a.year a.month a.day < 2932897 := by
  have h1 := dayOfYear_bound a.year a.month a.day ha.month_pos ha.month_le ha.day_le
  have h2 := daysBeforeYear_step a.year 10000 (by have := ha.year_le; omega)
  have h3 : daysBeforeYear 10000 = 3652425 := by decide
  have h4 := ha.day_pos
  rw [daysSinceEpoch_eq]
  omega

/-! ## What `time.Parse` accepts -/

theorem digit?_some (c : Char) (a : Nat) (h : digit? c = some a) :
    c = Char.ofNat (a + 48) ∧ a < 10 := by
  unfold digit? at h
  split at h
  · rename_i hc
    injection h with h
    have : a + 48 = c.toNat := by omega
    rw [this, Char.ofNat_toNat]
    exact ⟨rfl, by omega⟩
  · exact absurd h (by simp)

/-- A string accepted by `time.Parse` with the layout `2006-01-02` is ten characters,
digits and two dashes, and the date read from it is a date of the calendar. -/
theorem parseCivil_some (value : String) (d : CivilDate) (h : parseCivil value = some d) :
    ∃ a b c e f g i j : Nat,
      a < 10 ∧ b < 10 ∧ c < 10 ∧ e < 10 ∧ f < 10 ∧ g < 10 ∧ i < 10 ∧ j < 10 ∧
      value.toList = [Char.ofNat (a + 48), Char.ofNat (b + 48), Char.ofNat (c + 48),
        Char.ofNat (e + 48), '-', Char.ofNat (f + 48), Char.ofNat (g + 48), '-',
        Char.ofNat (i + 48), Char.ofNat (j + 48)] ∧
      d = ⟨1000 * a + 100 * b + 10 * c + e, 10 * f + g, 10 * i + j⟩ ∧ d.Valid := by
  unfold parseCivil at h
  split at h
  · rename_i y1 y2 y3 y4 s1 m1 m2 s2 d1 d2 hlist
    split at h
    · rename_i a b c e f g i j ha hb hc he hf hg hi hj
      dsimp only at h
      split at h
      · rename_i hcond
        obtain ⟨hs1, hs2, hm1, hm2, hd1, hd2⟩ := hcond
        injection h with h
        obtain ⟨ha1, ha2⟩ := digit?_some _ _ ha
        obtain ⟨hb1, hb2⟩ := digit?_some _ _ hb
        obtain ⟨hc1, hc2⟩ := digit?_some _ _ hc
        obtain ⟨he1, he2⟩ := digit?_some _ _ he
        obtain ⟨hf1, hf2⟩ := digit?_some _ _ hf
        obtain ⟨hg1, hg2⟩ := digit?_some _ _ hg
        obtain ⟨hi1, hi2⟩ := digit?_some _ _ hi
        obtain ⟨hj1, hj2⟩ := digit?_some _ _ hj
        refine ⟨a, b, c, e, f, g, i, j, ha2, hb2, hc2, he2, hf2, hg2, hi2, hj2, ?_, h.symm, ?_⟩
        · rw [hlist, ha1, hb1, hc1, he1, hf1, hg1, hi1, hj1, hs1, hs2]
        · rw [← h]
          exact ⟨by dsimp only; omega, hm1, hm2, hd1, hd2⟩
      · exact absurd h (by simp)
    · exact absurd h (by simp)
  · exact absurd h (by simp)

theorem parseCivil_valid (value : String) (d : CivilDate) (h : parseCivil value = some d) :
    d.Valid := by
  obtain ⟨a, b, c, e, f, g, i, j, -, -, -, -, -, -, -, -, -, -, hv⟩ := parseCivil_some value d h
  exact hv

/-- Two strings from which `time.Parse` reads the same date are the same string. -/
theorem parseCivil_inj (v1 v2 : String) (d : CivilDate) (h1 : parseCivil v1 = some d)
    (h2 : parseCivil v2 = some d) : v1 = v2 := by
  obtain ⟨a, b, c, e, f, g, i, j, ha, hb, hc, he, hf, hg, hi, hj, hl, hd, -⟩ :=
    parseCivil_some v1 d h1
  obtain ⟨a', b', c', e', f', g', i', j', ha', hb', hc', he', hf', hg', hi', hj', hl', hd', -⟩ :=
    parseCivil_some v2 d h2
  rw [hd] at hd'
  injection hd' with hy hm hday
  have e1 : a = a' := by omega
  have e2 : b = b' := by omega
  have e3 : c = c' := by omega
  have e4 : e = e' := by omega
  have e5 : f = f' := by omega
  have e6 : g = g' := by omega
  have e7 : i = i' := by omega
  have e8 : j = j' := by omega
  subst e1 e2 e3 e4 e5 e6 e7 e8
  have : v1.toList = v2.toList := by rw [hl, hl']
  exact String.ext this

theorem dateScore_of_parse (value : String) (d : CivilDate) (h : parseCivil value = some d) :
    dateScore value
      = .ok { Score := wrapInt64 (daysSinceEpoch d.year d.month d.day * 86400000000000) } := by
  unfold dateScore parseDateShortForm
  rw [h]
  dsimp only
  rw [float64_Date_UnixNano, Date_UnixNano]

theorem daysSinceEpoch_of_inUnixNanoRange (d : CivilDate) (hv : d.Valid)
    (h : d.inUnixNanoRange) :
    -106751 ≤ daysSinceEpoch d.year d.month d.day ∧
      daysSinceEpoch d.year d.month d.day ≤ 106751 := by
  have hlo : CivilDate.Valid ⟨1677, 9, 22⟩ := ⟨by decide, by decide, by decide, by decide, by decide⟩
  have hhi : CivilDate.Valid ⟨2262, 4, 11⟩ := ⟨by decide, by decide, by decide, by decide, by decide⟩
  have e1 : daysSinceEpoch 1677 9 22 = -106751 := by decide
  have e2 : daysSinceEpoch 2262 4 11 = 106751 := by decide
  constructor
  · by_contra hc
    have hlt : daysSinceEpoch d.year d.month d.day < daysSinceEpoch 1677 9 22 := by omega
    exact h.1 ((daysSinceEpoch_lt_iff d ⟨1677, 9, 22⟩ hv hlo).1 hlt)
  · by_contra hc
    have hlt : daysSinceEpoch 2262 4 11 < daysSinceEpoch d.year d.month d.day := by omega
    exact h.2 ((daysSinceEpoch_lt_iff ⟨2262, 4, 11⟩ d hhi hv).1 hlt)

theorem wrapInt64_days_inj (a b : Int) (ha1 : -719528 ≤ a) (ha2 : a < 2932897)
    (hb1 : -719528 ≤ b) (hb2 : b < 2932897)
    (h : wrapInt64 (a * 86400000000000) = wrapInt64 (b * 86400000000000)) : a = b := by
  unfold wrapInt64 at h
  have hk : ∃ k : Int, a * 86400000000000 - b * 86400000000000 = 18446744073709551616 * k := by
    generalize a * 86400000000000 = x at h
    generalize b * 86400000000000 = y at h
    exact ⟨(x + 2 ^ 63) / 2 ^ 64 - (y + 2 ^ 63) / 2 ^ 64, by omega⟩
  obtain ⟨k, hk⟩ := hk
  have hk' : (a - b) * 1318359375 = 281474976710656 * k := by linarith
  have hdvd : (281474976710656 : Int) ∣ (a - b) * 1318359375 := ⟨k, hk'⟩
  have hco : IsCoprime (281474976710656 : Int) 1318359375 := by
    rw [Int.isCoprime_iff_gcd_eq_one]
    norm_num
  have hd : (281474976710656 : Int) ∣ a - b := hco.dvd_of_dvd_mul_right hdvd
  have h0 : a - b = 0 := by
    apply Int.eq_zero_of_abs_lt_dvd hd
    rw [abs_lt]
    constructor <;> linarith
  linarith

/-- C7, counterexample: 2262-04-11 is an earlier date than 2262-04-12, both parse, and
the score of the earlier one is the greater: the nanosecond Unix time of the later
date wraps around. -/
theorem C7_counterexample :
    parseCivil "2262-04-11" = some ⟨2262, 4, 11⟩ ∧
    parseCivil "2262-04-12" = some ⟨2262, 4, 12⟩ ∧
    CivilDate.earlier ⟨2262, 4, 11⟩ ⟨2262, 4, 12⟩ ∧
    dateScore "2262-04-11" = .ok { Score := 9223286400000000000 } ∧
    dateScore "2262-04-12" = .ok { Score := -9223371273709551616 } ∧
    ¬ ((9223286400000000000 : Int) < -9223371273709551616) := by
  refine ⟨by decide, by decide, by decide, ?_, ?_, by decide⟩
  · rw [dateScore_of_parse "2262-04-11" ⟨2262, 4, 11⟩ (by decide)]
    have : wrapInt64 (daysSinceEpoch 2262 4 11 * 86400000000000) = 9223286400000000000 := by
      decide
    rw [this]
  · rw [dateScore_of_parse "2262-04-12" ⟨2262, 4, 12⟩ (by decide)]
    have : wrapInt64 (daysSinceEpoch 2262 4 12 * 86400000000000) = -9223371273709551616 := by
      decide
    rw [this]

/-- C7, as the code has it: for date strings that parse, equal scores mean equal dates
(and equal strings), for every date; and for dates from 1677-09-22 to 2262-04-11, whose
nanosecond Unix time fits `int64`, the earlier date has the smaller score and
conversely. -/
theorem C7_score_order (v1 v2 : String) (d1 d2 : CivilDate) (s1 s2 : Score)
    (h1 : parseCivil v1 = some d1) (h2 : parseCivil v2 = some d2)
    (hs1 : dateScore v1 = .ok s1) (hs2 : dateScore v2 = .ok s2) :
    (d1.inUnixNanoRange → d2.inUnixNanoRange → (d1.earlier d2 ↔ s1.Score < s2.Score)) ∧
    (d1 = d2 ↔ s1.Score = s2.Score) ∧
    (v1 = v2 ↔ s1.Score = s2.Score) := by
  have hv1 := parseCivil_valid v1 d1 h1
  have hv2 := parseCivil_valid v2 d2 h2
  rw [dateScore_of_parse v1 d1 h1] at hs1
  rw [dateScore_of_parse v2 d2 h2] at hs2
  injection hs1 with hs1
  injection hs2 with hs2
  subst hs1 hs2
  dsimp only
  have hb1 := daysSinceEpoch_bounds d1 hv1
  have hb2 := daysSinceEpoch_bounds d2 hv2
  have hdates : d1 = d2 ↔
      wrapInt64 (daysSinceEpoch d1.year d1.month d1.day * 86400000000000)
        = wrapInt64 (daysSinceEpoch d2.year d2.month d2.day * 86400000000000) := by
    constructor
    · intro h; rw [h]
    · intro h
      exact daysSinceEpoch_inj d1 d2 hv1 hv2
        (wrapInt64_days_inj _ _ hb1.1 hb1.2 hb2.1 hb2.2 h)
  refine ⟨?_, hdates, ?_⟩
  · intro hr1 hr2
    have hd1 := daysSinceEpoch_of_inUnixNanoRange d1 hv1 hr1
    have hd2 := daysSinceEpoch_of_inUnixNanoRange d2 hv2 hr2
    rw [wrapInt64_of_range _ (by omega) (by omega), wrapInt64_of_range _ (by omega) (by omega),
      ← daysSinceEpoch_lt_iff d1 d2 hv1 hv2]
    omega
  · constructor
    · intro h
      subst h
      rw [h1] at h2
      injection h2 with h2
      rw [h2]
    · intro h
      have hd := hdates.2 h
      subst hd
      exact parseCivil_inj v1 v2 d1 h1 h2

/-- Witness of C7 as the code has it: 2024-01-01 and 2024-01-31. -/
theorem C7_score_order_witness :
    (CivilDate.earlier ⟨2024, 1, 1⟩ ⟨2024, 1, 31⟩
      ↔ (1704067200000000000 : Int) < 1706659200000000000) :=
  (C7_score_order "2024-01-01" "2024-01-31" ⟨2024, 1, 1⟩ ⟨2024, 1, 31⟩
    ⟨1704067200000000000⟩ ⟨1706659200000000000⟩ (by decide) (by decide)
    (by rw [dateScore_of_parse "2024-01-01" ⟨2024, 1, 1⟩ (by decide)]; rfl)
    (by rw [dateScore_of_parse "2024-01-31" ⟨2024, 1, 31⟩ (by decide)]; rfl)).1
    (by decide) (by decide)

end Vcn
